import Mathlib

/-!
# Verification of the kiali-ui service-list pipeline and store configuration

Shallow embedding of the code in `src/pages/ServiceList/ServiceListComponent.tsx`
and `src/store/ConfigStore.ts`, together with proofs about the sorting,
filtering, pagination and persistence-configuration behaviour.

Modelling conventions:
* A settled JavaScript promise is an `Except String α` value: `.ok` for a
  resolved promise, `.error` for a rejected one.  `Promise.all` over settled
  promises rejects with the first rejection in array order (`promiseAll`).
* JavaScript numbers are modelled as `Rat`; machine floating point is not
  relevant to any comparison performed by this code.
* `String.prototype.localeCompare` is modelled as character-wise lexicographic
  comparison returning `-1`, `0` or `1` (`localeCompare`).
* `Array.prototype.sort(cmp)` is, per ES2019, a stable sort that puts `a`
  before `b` whenever `cmp a b < 0` and keeps the original relative order of
  ties.  For the consistent comparators of this file every such sort computes
  the same list, which we take as `List.insertionSort` with `cmp a b ≤ 0`
  (`jsSort`).
* Object mutation performed by the health fan-out (`withHealth.health =
  health`) is tracked explicitly: `SortEffect.inputArrayAfter` is the content
  of the caller's array object after `sortServices` has run, element by
  element in its post-mutation state, and `Resolved.inputArray` records that
  the returned promise resolved with that very array object rather than a
  fresh one.
-/

deriving instance DecidableEq for Except

/-- Character-list lexicographic comparison with the `-1 / 0 / 1` convention
of `localeCompare`. -/
def charListCmp : List Char → List Char → Rat
  | [], [] => 0
  | [], _ :: _ => -1
  | _ :: _, [] => 1
  | a :: as, b :: bs => if a < b then -1 else if b < a then 1 else charListCmp as bs

/-- Model of `String.prototype.localeCompare`: sign-comparison of the two
strings, character-wise and locale-independent. -/
def localeCompare (a b : String) : Rat :=
  charListCmp a.data b.data

/-- Model of `List` infix testing used for `String.prototype.includes`. -/
def isInfixOfList : List Char → List Char → Bool
  | needle, [] => needle.isEmpty
  | needle, c :: rest => needle.isPrefixOf (c :: rest) || isInfixOfList needle rest

/-- Model of `String.prototype.includes`: substring containment. -/
def includes (s search : String) : Bool :=
  isInfixOfList search.data s.data

/-- Modelled from the spec: the numeric request-error-ratio data carried by a
service's health, "used only for numeric sort comparison" (the defining file
`src/types/Health.ts` is not part of the snapshot). -/
structure RequestHealth where
  errorRatio : Rat
deriving DecidableEq

/-- Modelled from the spec: a service's resolved health status; only the
request data consulted by the error-rate comparator is represented. -/
structure ServiceHealth where
  requests : RequestHealth
deriving DecidableEq

/-- Result wrapper of `getRequestErrorsRatio`, of which the source reads the
`value` field. -/
structure RatioValue where
  value : Rat
deriving DecidableEq

/-- Modelled from the spec: `getRequestErrorsRatio` (from the absent
`src/types/Health.ts`) exposes the request-error ratio of the given request
data as a numeric `value`. -/
def getRequestErrorsRatio (requests : RequestHealth) : RatioValue :=
  ⟨requests.errorRatio⟩

/-- Modelled from the spec: a `ServiceItem` (from the absent
`src/types/ServiceListComponent.ts`): immutable identity (name, namespace), a
synchronous summary (sidecar presence) and a deferred health handle.  The
`health` field is the dynamic property attached by the health fan-out of
`sortServices`; it is absent (`none`) until that mutation happens. -/
structure ServiceItem where
  name : String
  «namespace» : String
  istioSidecar : Bool
  healthPromise : Except String ServiceHealth
  health : Option ServiceHealth := none
deriving DecidableEq

/-- The health value read by the error-rate comparator.  In the source the
comparator is typed over `ServiceItemHealth = ServiceItem & {health:
ServiceHealth}`, so `health` is always present at every call site; the
default of the `Option.getD` is never reached in the modelled pipeline. -/
def ServiceItem.resolvedHealth (it : ServiceItem) : ServiceHealth :=
  it.health.getD ⟨⟨0⟩⟩

/-- Modelled from the spec: the`ServiceOverview` summary delivered by the
data-fetch collaborator (defined in the absent
`src/types/ServiceListComponent.ts`); only the fields read by `isFiltered`
are represented. -/
structure ServiceOverview where
  name : String
  istioSidecar : Bool
deriving DecidableEq

/-- A sort field of the service list: title, numeric flag, URL parameter and
comparator. -/
structure SortField where
  title : String
  isNumeric : Bool
  param : String
  compare : ServiceItem → ServiceItem → Rat

/-- Comparator of the `Namespace` sort field (inlined in the source's
`sortFields` literal): namespace order with fallback to name order. -/
def namespaceCompare (a b : ServiceItem) : Rat :=
  let sortValue := localeCompare a.«namespace» b.«namespace»
  if sortValue = 0 then localeCompare a.name b.name else sortValue

/-- Comparator of the `Service Name` sort field (inlined in the source's
`sortFields` literal). -/
def serviceNameCompare (a b : ServiceItem) : Rat :=
  localeCompare a.name b.name

/-- Comparator of the `Istio Sidecar` sort field (inlined in the source's
`sortFields` literal): items with a sidecar first, ties by name. -/
def istioSidecarCompare (a b : ServiceItem) : Rat :=
  if a.istioSidecar && !b.istioSidecar then -1
  else if !a.istioSidecar && b.istioSidecar then 1
  else localeCompare a.name b.name

/-- Comparator of the `Error Rate` sort field (inlined in the source's
`sortFields` literal): request-error ratio, ties by name. -/
def errorRateCompare (a b : ServiceItem) : Rat :=
  let ratioA := (getRequestErrorsRatio a.resolvedHealth.requests).value
  let ratioB := (getRequestErrorsRatio b.resolvedHealth.requests).value
  if ratioA = ratioB then localeCompare a.name b.name else ratioA - ratioB

/-- The four entries of the exported `sortFields` array. -/
def namespaceSortField : SortField :=
  { title := "Namespace", isNumeric := false, param := "ns", compare := namespaceCompare }

def serviceNameSortField : SortField :=
  { title := "Service Name", isNumeric := false, param := "sn", compare := serviceNameCompare }

def istioSidecarSortField : SortField :=
  { title := "Istio Sidecar", isNumeric := false, param := "is", compare := istioSidecarCompare }

def errorRateSortField : SortField :=
  { title := "Error Rate", isNumeric := true, param := "er", compare := errorRateCompare }

/-- `sortFields` of `ServiceListComponent.tsx`. -/
def sortFields : List SortField :=
  [namespaceSortField, serviceNameSortField, istioSidecarSortField, errorRateSortField]

/-- The stable comparator sort performed by `Array.prototype.sort(cmp)` for a
consistent comparator: `a` precedes `b` when `cmp a b < 0`, ties keep their
original relative order. -/
def jsSort (cmp : ServiceItem → ServiceItem → Rat) (l : List ServiceItem) : List ServiceItem :=
  l.insertionSort fun a b => cmp a b ≤ 0

/-- The directed comparator actually passed to the sort:
`isAscending ? sortField.compare : (a, b) => sortField.compare(b, a)`. -/
def directedCompare (sortField : SortField) (isAscending : Bool) :
    ServiceItem → ServiceItem → Rat :=
  fun a b => if isAscending then sortField.compare a b else sortField.compare b a

/-- `Promise.all` over an array of settled promises: resolves with the array
of values if every promise resolved, rejects with the first rejection in
array order otherwise. -/
def promiseAll : List (Except String ServiceItem) → Except String (List ServiceItem)
  | [] => .ok []
  | .error e :: _ => .error e
  | .ok a :: rest => (promiseAll rest).map (a :: ·)

/-- The post-state of one item object once the health fan-out of
`sortServices` has run: the `then` callback of an item whose own health
promise resolved has mutated the object by attaching the resolved health
(`withHealth.health = health`); an item whose promise rejected is untouched. -/
def attachResolved (item : ServiceItem) : ServiceItem :=
  match item.healthPromise with
  | .ok health => { item with health := some health }
  | .error _ => item

/-- The rejection reason of the first item (in array order) whose health
promise rejected, if any. -/
def firstHealthError (services : List ServiceItem) : Option String :=
  services.findSome? fun it =>
    match it.healthPromise with
    | .error e => some e
    | .ok _ => none

/-- Which array object the promise returned by `sortServices` resolved with:
the caller's input array itself, or a fresh array (the one built by
`Promise.all`). -/
inductive Resolved where
  | inputArray : Resolved
  | freshArray (contents : List ServiceItem) : Resolved
deriving DecidableEq

/-- Complete observable outcome of one `sortServices` call: the settled state
of the returned promise, the content of the caller's array object afterwards
(element by element, in its post-mutation state), and whether the promise was
produced synchronously (`Promise.resolve`, no awaiting). -/
structure SortEffect where
  result : Except String Resolved
  inputArrayAfter : List ServiceItem
  synchronous : Bool
deriving DecidableEq

/-- The list of items the returned promise resolved with (the input array's
current content if it resolved with the input array itself). -/
def SortEffect.resolvedContents (e : SortEffect) : Except String (List ServiceItem) :=
  e.result.map fun r =>
    match r with
    | .inputArray => e.inputArrayAfter
    | .freshArray contents => contents

/-- `sortServices` of `ServiceListComponent.tsx`.  For the `Error Rate` field
it first joins all health promises (each `then` callback mutating its item),
then sorts the fresh array produced by `Promise.all`; otherwise it sorts the
input array in place and resolves immediately with it. -/
def sortServices (services : List ServiceItem) (sortField : SortField)
    (isAscending : Bool) : SortEffect :=
  if sortField.title = "Error Rate" then
    let allHealthPromises : List (Except String ServiceItem) :=
      services.map fun item =>
        item.healthPromise.map fun health => { item with health := some health }
    { result :=
        (promiseAll allHealthPromises).map fun arr =>
          .freshArray (jsSort (directedCompare sortField isAscending) arr),
      inputArrayAfter := services.map attachResolved,
      synchronous := false }
  else
    { result := .ok .inputArray,
      inputArrayAfter := jsSort (directedCompare sortField isAscending) services,
      synchronous := true }

/-- The component state fields involved in sorting. -/
structure ComponentState where
  services : List ServiceItem
  currentSortField : SortField
  isSortAscending : Bool

/-- `updateSortField` of `ServiceListComponent.tsx`: run `sortServices` and,
in the `then` callback, store the sorted array and the new sort field.  There
is no rejection handler, so on rejection `setState` is never called: the
state still holds the same array object, whose elements are in their
post-fan-out state (`inputArrayAfter`). -/
def updateSortField (st : ComponentState) (sortField : SortField) : ComponentState :=
  let eff := sortServices st.services sortField st.isSortAscending
  match eff.result with
  | .ok .inputArray =>
      { st with currentSortField := sortField, services := eff.inputArrayAfter }
  | .ok (.freshArray contents) =>
      { st with currentSortField := sortField, services := contents }
  | .error _ => { st with services := eff.inputArrayAfter }

/-- `isFiltered` of `ServiceListComponent.tsx`: name filters are an OR of
substring tests (the source's early-exit loop), the sidecar filter is applied
only when exactly one value is active. -/
def isFiltered (service : ServiceOverview) (servicenameFilters istioFilters : List String) :
    Bool :=
  let serviceNameFiltered :=
    if 0 < servicenameFilters.length then
      servicenameFilters.any fun f => includes service.name f
    else true
  let istioFiltered :=
    if istioFilters.length = 1 then
      let v := istioFilters.headD ""
      if v = "Present" then service.istioSidecar
      else if v = "Not Present" then !service.istioSidecar
      else true
    else true
  serviceNameFiltered && istioFiltered

/-- The filtering step of `fetchServices`: `serviceList.filter(service =>
this.isFiltered(...))`, applied only when some filter is active. -/
def filterServices (serviceList : List ServiceOverview)
    (servicenameFilters istioFilters : List String) : List ServiceOverview :=
  if 0 < servicenameFilters.length || 0 < istioFilters.length then
    serviceList.filter fun service => isFiltered service servicenameFilters istioFilters
  else serviceList

/-- `Array.prototype.indexOf`: index of the first occurrence, `-1` if absent. -/
def jsIndexOf : List String → String → Int
  | [], _ => -1
  | a :: t, x =>
    if x = a then 0
    else
      let r := jsIndexOf t x
      if r = -1 then -1 else r + 1

/-- The index-aware filter `arr.filter((x, i) => arr.indexOf(x) === i)` of
`cleanIstioFilters`, keeping first occurrences only.  `orig` is the array the
callback closes over, `i` the running element index. -/
def keepFirstAux (orig : List String) : Int → List String → List String
  | _, [] => []
  | i, x :: rest =>
    if jsIndexOf orig x = i then x :: keepFirstAux orig (i + 1) rest
    else keepFirstAux orig (i + 1) rest

/-- `istioFilters.filter((iFilter, i) => istioFilters.indexOf(iFilter) === i)`. -/
def keepFirstOccurrences (l : List String) : List String :=
  keepFirstAux l 0 l

/-- `cleanIstioFilters` of `ServiceListComponent.tsx`: de-duplicate, then
treat a selection of both values of the two-valued category as no filter. -/
def cleanIstioFilters (istioFilters : List String) : List String :=
  if istioFilters.length = 0 then []
  else
    let cleanArray := keepFirstOccurrences istioFilters
    if cleanArray.length = 2 then [] else cleanArray

/-- The page slice computed by `render`: `pageStart = (page-1)*perPage`,
`pageEnd = min(pageStart+perPage, length)`, then one item per index of
`[pageStart, pageEnd)`. -/
def renderSlice (services : List ServiceItem) (page perPage : Nat) : List ServiceItem :=
  let pageStart := (page - 1) * perPage
  let pageEnd := min (pageStart + perPage) services.length
  (List.range' pageStart (pageEnd - pageStart)).filterMap fun i => services[i]?

/-! ### Store configuration (`src/store/ConfigStore.ts`) -/

/-- The named slices of `KialiAppState`, per the `initialStore` literal of
`ConfigStore.ts`. -/
inductive SliceName where
  | globalState | statusState | namespaces | authentication
  | messageCenter | graph | userSettings
deriving DecidableEq

/-- The storage key of each slice, as it appears in the state object and is
matched against the persistence whitelist. -/
def sliceKey : SliceName → String
  | .globalState => "globalState"
  | .statusState => "statusState"
  | .namespaces => "namespaces"
  | .authentication => "authentication"
  | .messageCenter => "messageCenter"
  | .graph => "graph"
  | .userSettings => "userSettings"

/-- Modelled from the spec: each slice's internal shape lives in a reducer
file absent from the snapshot; a slice value is modelled as either the
compile-time default of some slice or an arbitrary mutated payload, which is
all the persistence contract distinguishes. -/
inductive SliceValue where
  | initial (s : SliceName) : SliceValue
  | payload (data : String) : SliceValue
deriving DecidableEq

/-- Modelled from the spec: the `INITIAL_*` compile-time defaults imported by
`ConfigStore.ts` from the absent reducer files. -/
def INITIAL_GLOBAL_STATE : SliceValue := .initial .globalState

def INITIAL_STATUS_STATE : SliceValue := .initial .statusState

def INITIAL_NAMESPACE_STATE : SliceValue := .initial .namespaces

def INITIAL_LOGIN_STATE : SliceValue := .initial .authentication

def INITIAL_MESSAGE_CENTER_STATE : SliceValue := .initial .messageCenter

def INITIAL_GRAPH_STATE : SliceValue := .initial .graph

def INITIAL_USER_SETTINGS_STATE : SliceValue := .initial .userSettings

/-- The full application state: one value per named slice. -/
def KialiAppState := SliceName → SliceValue

/-- The persistence configuration of `ConfigStore.ts` (the `storage` backend
itself is an external collaborator and is not represented). -/
structure PersistConfig where
  key : String
  whitelist : List String

/-- `persistConfig` of `ConfigStore.ts`. -/
def persistConfig : PersistConfig :=
  { key := "root", whitelist := ["authentication", "statusState", "userSettings"] }

/-- `initialStore` of `ConfigStore.ts`: every slice starts from its
compile-time default. -/
def initialStore : KialiAppState := fun s =>
  match s with
  | .globalState => INITIAL_GLOBAL_STATE
  | .statusState => INITIAL_STATUS_STATE
  | .namespaces => INITIAL_NAMESPACE_STATE
  | .authentication => INITIAL_LOGIN_STATE
  | .messageCenter => INITIAL_MESSAGE_CENTER_STATE
  | .graph => INITIAL_GRAPH_STATE
  | .userSettings => INITIAL_USER_SETTINGS_STATE

/-- Modelled from the spec: what `redux-persist` with `persistConfig` writes
to durable storage — exactly the whitelisted slices' current values, nothing
for any other slice. -/
def persistedSlices (state : KialiAppState) : SliceName → Option SliceValue := fun s =>
  if sliceKey s ∈ persistConfig.whitelist then some (state s) else none

/-- Modelled from the spec: rehydration on process start — for each
whitelisted slice present in storage, overlay its persisted value onto the
default; every other slice (and any slice absent from storage) is
reconstructed from its compile-time default. -/
def rehydrate (stored : SliceName → Option SliceValue) : KialiAppState := fun s =>
  if sliceKey s ∈ persistConfig.whitelist then (stored s).getD (initialStore s)
  else initialStore s

/-! ### Comparator lawfulness -/

/-- The lexicographic composition underlying all four source comparators:
primary comparison, falling back to a secondary one on ties. -/
def lexCmp (c₁ c₂ : ServiceItem → ServiceItem → Rat) (a b : ServiceItem) : Rat :=
  if c₁ a b = 0 then c₂ a b else c₁ a b

/-- Primary comparison of the `Istio Sidecar` field, sidecar-present items
first. -/
def sidecarPrimaryCmp (a b : ServiceItem) : Rat :=
  if a.istioSidecar && !b.istioSidecar then -1
  else if !a.istioSidecar && b.istioSidecar then 1
  else 0

/-- Primary comparison of the `Error Rate` field: difference of the request
error ratios. -/
def ratioPrimaryCmp (a b : ServiceItem) : Rat :=
  (getRequestErrorsRatio a.resolvedHealth.requests).value -
    (getRequestErrorsRatio b.resolvedHealth.requests).value

/-- The name-fallback comparator shared by all four sort fields. -/
def nameCmp (a b : ServiceItem) : Rat :=
  localeCompare a.name b.name

/-- Primary comparison of the `Namespace` field. -/
def namespacePrimaryCmp (a b : ServiceItem) : Rat :=
  localeCompare a.«namespace» b.«namespace»

/-- The array of derived health promises built by the `Error Rate` branch of
`sortServices`. -/
def healthJoin (services : List ServiceItem) : List (Except String ServiceItem) :=
  services.map fun item =>
    item.healthPromise.map fun health => { item with health := some health }

def itemA : ServiceItem :=
  { name := "alpha", «namespace» := "ns1", istioSidecar := true,
    healthPromise := .ok ⟨⟨1⟩⟩ }

def itemB : ServiceItem :=
  { name := "beta", «namespace» := "ns2", istioSidecar := false,
    healthPromise := .ok ⟨⟨3⟩⟩ }

def itemErr : ServiceItem :=
  { name := "gamma", «namespace» := "ns1", istioSidecar := true,
    healthPromise := .error "health fetch failed" }

def itemDupName1 : ServiceItem :=
  { name := "alpha", «namespace» := "ns1", istioSidecar := true,
    healthPromise := .ok ⟨⟨0⟩⟩ }

def itemDupName2 : ServiceItem :=
  { name := "alpha", «namespace» := "ns2", istioSidecar := true,
    healthPromise := .ok ⟨⟨0⟩⟩ }

/-- Exact-value matching of one sidecar-presence filter value against an
item, following the spec's words: `Present` matches items with a sidecar,
`Not Present` matches items without one. -/
def istioValueMatches (service : ServiceOverview) (v : String) : Bool :=
  if v = "Present" then service.istioSidecar
  else if v = "Not Present" then !service.istioSidecar
  else false

/-- The spec's filtering contract, stated from its words for comparison with
the source's `isFiltered`: an item passes a category's group if it matches at
least one filter within that group (OR, substring containment for names,
exact value for sidecar presence) and passes overall only if it passes every
group that has at least one filter (AND); a category with no active filters
imposes no constraint. -/
def isFiltered_spec (service : ServiceOverview)
    (servicenameFilters istioFilters : List String) : Bool :=
  (servicenameFilters.isEmpty ||
      servicenameFilters.any fun f => includes service.name f) &&
  (istioFilters.isEmpty || istioFilters.any fun v => istioValueMatches service v)

/-- Lawfulness of a sign-valued comparator: swapping the arguments negates
the result, strict comparison is transitive, and comparator-equality is
substitutive.  These are the facts the lexicographic comparators of
`sortFields` satisfy. -/
structure CmpLawful (cmp : ServiceItem → ServiceItem → Rat) : Prop where
  swap : ∀ a b, cmp b a = -cmp a b
  lt_trans : ∀ a b c, cmp a b < 0 → cmp b c < 0 → cmp a c < 0
  zero_subst : ∀ a b, cmp a b = 0 → ∀ c, cmp a c = cmp b c

namespace CmpLawful

variable {cmp : ServiceItem → ServiceItem → Rat}

theorem zero_subst_right (h : CmpLawful cmp) {a b : ServiceItem}
    (hab : cmp a b = 0) (c : ServiceItem) : cmp c a = cmp c b := by
  have h1 := h.swap a c
  have h2 := h.swap b c
  have := h.zero_subst a b hab c
  linarith

theorem le_trans (h : CmpLawful cmp) {a b c : ServiceItem}
    (hab : cmp a b ≤ 0) (hbc : cmp b c ≤ 0) : cmp a c ≤ 0 := by
  rcases lt_or_eq_of_le hab with hab' | hab'
  · rcases lt_or_eq_of_le hbc with hbc' | hbc'
    · exact le_of_lt (h.lt_trans a b c hab' hbc')
    · have := h.zero_subst_right hbc' a
      linarith
  · have := h.zero_subst a b hab' c
    linarith

theorem total (h : CmpLawful cmp) (a b : ServiceItem) :
    cmp a b ≤ 0 ∨ cmp b a ≤ 0 := by
  have hs := h.swap a b
  rcases le_or_lt (cmp a b) 0 with h1 | h1
  · exact Or.inl h1
  · exact Or.inr (by linarith)

theorem asymm (h : CmpLawful cmp) {a b : ServiceItem} (hab : cmp a b < 0) :
    ¬ cmp b a < 0 := by
  have hs := h.swap a b
  intro hba
  linarith

theorem flip (h : CmpLawful cmp) : CmpLawful (fun a b => cmp b a) where
  swap := fun a b => h.swap b a
  lt_trans := fun a b c hab hbc => h.lt_trans c b a hbc hab
  zero_subst := by
    intro a b hab c
    have hba : cmp b a = 0 := hab
    have hab' : cmp a b = 0 := by have := h.swap a b; linarith
    exact h.zero_subst_right hab' c

end CmpLawful

theorem lexCmp_lawful {c₁ c₂ : ServiceItem → ServiceItem → Rat}
    (h₁ : CmpLawful c₁) (h₂ : CmpLawful c₂) : CmpLawful (lexCmp c₁ c₂) where
  swap := by
    intro a b
    unfold lexCmp
    have hs₁ := h₁.swap a b
    have hs₂ := h₂.swap a b
    by_cases hz : c₁ a b = 0
    · simp [hz, hs₁, hs₂]
    · have : ¬ c₁ b a = 0 := by rw [hs₁]; intro hc; apply hz; linarith
      simp [hz, this, hs₁]
  lt_trans := by
    intro a b c hab hbc
    unfold lexCmp at *
    by_cases hab0 : c₁ a b = 0
    · by_cases hbc0 : c₁ b c = 0
      · have hac0 : c₁ a c = 0 := by rw [h₁.zero_subst a b hab0 c]; exact hbc0
        simp only [hab0, if_pos rfl, hbc0] at hab hbc
        simp only [hac0, if_pos rfl]
        exact h₂.lt_trans a b c (by simpa using hab) (by simpa using hbc)
      · have hbc1 : c₁ b c < 0 := by simpa [hbc0] using hbc
        have hac1 : c₁ a c < 0 := by rw [h₁.zero_subst a b hab0 c]; exact hbc1
        simp [ne_of_lt hac1, hac1]
    · by_cases hbc0 : c₁ b c = 0
      · have hab1 : c₁ a b < 0 := by simpa [hab0] using hab
        have hac1 : c₁ a c < 0 := by
          rw [← h₁.zero_subst_right hbc0 a]; exact hab1
        simp [ne_of_lt hac1, hac1]
      · have hab1 : c₁ a b < 0 := by simpa [hab0] using hab
        have hbc1 : c₁ b c < 0 := by simpa [hbc0] using hbc
        have hac1 : c₁ a c < 0 := h₁.lt_trans a b c hab1 hbc1
        simp [ne_of_lt hac1, hac1]
  zero_subst := by
    intro a b hab c
    unfold lexCmp at *
    by_cases hab0 : c₁ a b = 0
    · have h2 : c₂ a b = 0 := by simpa [hab0] using hab
      rw [h₁.zero_subst a b hab0 c, h₂.zero_subst a b h2 c]
    · rw [if_neg hab0] at hab
      exact absurd hab hab0

theorem lexCmp_eq_zero_iff {c₁ c₂ : ServiceItem → ServiceItem → Rat} {a b : ServiceItem} :
    lexCmp c₁ c₂ a b = 0 ↔ c₁ a b = 0 ∧ c₂ a b = 0 := by
  unfold lexCmp
  by_cases h : c₁ a b = 0 <;> simp [h]

theorem lexCmp_of_primary_zero {c₁ c₂ : ServiceItem → ServiceItem → Rat} {a b : ServiceItem}
    (h : c₁ a b = 0) : lexCmp c₁ c₂ a b = c₂ a b := by
  simp [lexCmp, h]

theorem charListCmp_eq_zero_iff : ∀ {a b : List Char}, charListCmp a b = 0 ↔ a = b
  | [], [] => by simp [charListCmp]
  | [], _ :: _ => by simp [charListCmp]
  | _ :: _, [] => by simp [charListCmp]
  | x :: xs, y :: ys => by
    unfold charListCmp
    rcases lt_trichotomy x y with h | h | h
    · rw [if_pos h]
      constructor
      · intro hc; norm_num at hc
      · intro hc
        simp only [List.cons.injEq] at hc
        exact absurd hc.1 (ne_of_lt h)
    · subst h
      rw [if_neg (lt_irrefl x), if_neg (lt_irrefl x)]
      rw [charListCmp_eq_zero_iff]
      simp
    · rw [if_neg (not_lt_of_gt h), if_pos h]
      constructor
      · intro hc; norm_num at hc
      · intro hc
        simp only [List.cons.injEq] at hc
        exact absurd hc.1.symm (ne_of_lt h)

theorem charListCmp_swap : ∀ (a b : List Char), charListCmp b a = -charListCmp a b
  | [], [] => by simp [charListCmp]
  | [], _ :: _ => by simp [charListCmp]
  | _ :: _, [] => by simp [charListCmp]
  | x :: xs, y :: ys => by
    unfold charListCmp
    rcases lt_trichotomy x y with h | h | h
    · rw [if_neg (not_lt_of_gt h), if_pos h, if_pos h]
      norm_num
    · subst h
      rw [if_neg (lt_irrefl x), if_neg (lt_irrefl x), if_neg (lt_irrefl x),
        if_neg (lt_irrefl x)]
      exact charListCmp_swap xs ys
    · rw [if_pos h, if_neg (not_lt_of_gt h), if_pos h]

theorem charListCmp_lt_trans :
    ∀ (a b c : List Char), charListCmp a b < 0 → charListCmp b c < 0 → charListCmp a c < 0
  | [], [], _ => by intro h _; norm_num [charListCmp] at h
  | [], _ :: _, [] => by intro _ h; norm_num [charListCmp] at h
  | [], _ :: _, _ :: _ => by intro _ _; norm_num [charListCmp]
  | _ :: _, [], _ => by intro h _; norm_num [charListCmp] at h
  | _ :: _, _ :: _, [] => by intro _ h; norm_num [charListCmp] at h
  | x :: xs, y :: ys, z :: zs => by
    intro h₁ h₂
    unfold charListCmp at h₁ h₂ ⊢
    rcases lt_trichotomy x y with hxy | hxy | hxy
    · rcases lt_trichotomy y z with hyz | hyz | hyz
      · rw [if_pos (lt_trans hxy hyz)]; norm_num
      · subst hyz; rw [if_pos hxy]; norm_num
      · rw [if_neg (not_lt_of_gt hyz), if_pos hyz] at h₂; norm_num at h₂
    · subst hxy
      rw [if_neg (lt_irrefl x), if_neg (lt_irrefl x)] at h₁
      rcases lt_trichotomy x z with hyz | hyz | hyz
      · rw [if_pos hyz]; norm_num
      · subst hyz
        rw [if_neg (lt_irrefl x), if_neg (lt_irrefl x)] at h₂ ⊢
        exact charListCmp_lt_trans xs ys zs h₁ h₂
      · rw [if_neg (not_lt_of_gt hyz), if_pos hyz] at h₂; norm_num at h₂
    · rw [if_neg (not_lt_of_gt hxy), if_pos hxy] at h₁; norm_num at h₁

theorem localeCompare_eq_zero_iff {a b : String} : localeCompare a b = 0 ↔ a = b := by
  unfold localeCompare
  rw [charListCmp_eq_zero_iff]
  constructor
  · intro h
    cases a; cases b
    exact congrArg String.mk h
  · intro h; rw [h]

theorem localeCompare_swap (a b : String) : localeCompare b a = -localeCompare a b :=
  charListCmp_swap a.data b.data

theorem localeCompare_lt_trans {a b c : String}
    (h₁ : localeCompare a b < 0) (h₂ : localeCompare b c < 0) : localeCompare a c < 0 :=
  charListCmp_lt_trans a.data b.data c.data h₁ h₂

/-- A comparator that compares a string-valued key with `localeCompare` is
lawful. -/
theorem stringKeyCmp_lawful (k : ServiceItem → String) :
    CmpLawful (fun a b => localeCompare (k a) (k b)) where
  swap := fun a b => localeCompare_swap (k a) (k b)
  lt_trans := fun _ _ _ h₁ h₂ => localeCompare_lt_trans h₁ h₂
  zero_subst := by
    intro a b hab c
    have : k a = k b := localeCompare_eq_zero_iff.mp hab
    rw [this]

theorem sidecarPrimaryCmp_lawful : CmpLawful sidecarPrimaryCmp where
  swap := by
    intro a b
    unfold sidecarPrimaryCmp
    cases ha : a.istioSidecar <;> cases hb : b.istioSidecar <;> norm_num
  lt_trans := by
    intro a b c hab hbc
    unfold sidecarPrimaryCmp at *
    cases ha : a.istioSidecar <;> cases hb : b.istioSidecar <;>
      cases hc : c.istioSidecar <;> simp [ha, hb, hc] at * <;> linarith
  zero_subst := by
    intro a b hab c
    unfold sidecarPrimaryCmp at *
    cases ha : a.istioSidecar <;> cases hb : b.istioSidecar <;> simp [ha, hb] at *

theorem sidecarPrimaryCmp_eq_zero_iff {a b : ServiceItem} :
    sidecarPrimaryCmp a b = 0 ↔ a.istioSidecar = b.istioSidecar := by
  unfold sidecarPrimaryCmp
  cases ha : a.istioSidecar <;> cases hb : b.istioSidecar <;> norm_num

theorem ratioPrimaryCmp_lawful : CmpLawful ratioPrimaryCmp where
  swap := by intro a b; unfold ratioPrimaryCmp; ring
  lt_trans := by intro a b c hab hbc; unfold ratioPrimaryCmp at *; linarith
  zero_subst := by intro a b hab c; unfold ratioPrimaryCmp at *; linarith

theorem ratioPrimaryCmp_eq_zero_iff {a b : ServiceItem} :
    ratioPrimaryCmp a b = 0 ↔
      (getRequestErrorsRatio a.resolvedHealth.requests).value =
        (getRequestErrorsRatio b.resolvedHealth.requests).value := by
  unfold ratioPrimaryCmp
  constructor
  · intro h; linarith
  · intro h; rw [h]; ring

theorem nameCmp_lawful : CmpLawful nameCmp :=
  stringKeyCmp_lawful (fun it => it.name)

theorem nameCmp_eq_zero_iff {a b : ServiceItem} : nameCmp a b = 0 ↔ a.name = b.name :=
  localeCompare_eq_zero_iff

theorem namespacePrimaryCmp_lawful : CmpLawful namespacePrimaryCmp :=
  stringKeyCmp_lawful (fun it => it.«namespace»)

theorem namespaceCompare_eq : namespaceCompare = lexCmp namespacePrimaryCmp nameCmp :=
  rfl

theorem serviceNameCompare_eq : serviceNameCompare = nameCmp :=
  rfl

theorem istioSidecarCompare_eq : istioSidecarCompare = lexCmp sidecarPrimaryCmp nameCmp := by
  funext a b
  unfold istioSidecarCompare lexCmp sidecarPrimaryCmp nameCmp
  cases ha : a.istioSidecar <;> cases hb : b.istioSidecar <;> norm_num

theorem errorRateCompare_eq : errorRateCompare = lexCmp ratioPrimaryCmp nameCmp := by
  funext a b
  unfold errorRateCompare lexCmp ratioPrimaryCmp nameCmp
  rcases eq_or_ne (getRequestErrorsRatio a.resolvedHealth.requests).value
      (getRequestErrorsRatio b.resolvedHealth.requests).value with h | h
  · rw [h]; norm_num
  · rw [if_neg h, if_neg (sub_ne_zero_of_ne h)]

/-- Every comparator of `sortFields` is lawful. -/
theorem sortFields_compare_lawful : ∀ sf ∈ sortFields, CmpLawful sf.compare := by
  intro sf hsf
  simp only [sortFields, List.mem_cons, List.not_mem_nil, or_false] at hsf
  rcases hsf with h | h | h | h <;> subst h
  · rw [show namespaceSortField.compare = namespaceCompare from rfl, namespaceCompare_eq]
    exact lexCmp_lawful namespacePrimaryCmp_lawful nameCmp_lawful
  · rw [show serviceNameSortField.compare = serviceNameCompare from rfl,
      serviceNameCompare_eq]
    exact nameCmp_lawful
  · rw [show istioSidecarSortField.compare = istioSidecarCompare from rfl,
      istioSidecarCompare_eq]
    exact lexCmp_lawful sidecarPrimaryCmp_lawful nameCmp_lawful
  · rw [show errorRateSortField.compare = errorRateCompare from rfl, errorRateCompare_eq]
    exact lexCmp_lawful ratioPrimaryCmp_lawful nameCmp_lawful

/-- A tie of any `sortFields` comparator forces equal names. -/
theorem sortFields_compare_zero_name :
    ∀ sf ∈ sortFields, ∀ a b : ServiceItem, sf.compare a b = 0 → a.name = b.name := by
  intro sf hsf a b hz
  simp only [sortFields, List.mem_cons, List.not_mem_nil, or_false] at hsf
  rcases hsf with h | h | h | h <;> subst h
  · rw [show namespaceSortField.compare = namespaceCompare from rfl,
      namespaceCompare_eq] at hz
    exact nameCmp_eq_zero_iff.mp (lexCmp_eq_zero_iff.mp hz).2
  · rw [show serviceNameSortField.compare = serviceNameCompare from rfl,
      serviceNameCompare_eq] at hz
    exact nameCmp_eq_zero_iff.mp hz
  · rw [show istioSidecarSortField.compare = istioSidecarCompare from rfl,
      istioSidecarCompare_eq] at hz
    exact nameCmp_eq_zero_iff.mp (lexCmp_eq_zero_iff.mp hz).2
  · rw [show errorRateSortField.compare = errorRateCompare from rfl,
      errorRateCompare_eq] at hz
    exact nameCmp_eq_zero_iff.mp (lexCmp_eq_zero_iff.mp hz).2

theorem directedCompare_lawful {sf : SortField} (h : CmpLawful sf.compare)
    (isAscending : Bool) : CmpLawful (directedCompare sf isAscending) := by
  unfold directedCompare
  cases isAscending
  · simpa using h.flip
  · simpa using h

/-! ### Sorting infrastructure -/

theorem jsSort_perm (cmp : ServiceItem → ServiceItem → Rat) (l : List ServiceItem) :
    (jsSort cmp l).Perm l :=
  List.perm_insertionSort _ l

theorem jsSort_sorted {cmp : ServiceItem → ServiceItem → Rat} (h : CmpLawful cmp)
    (l : List ServiceItem) : (jsSort cmp l).Pairwise fun a b => cmp a b ≤ 0 := by
  haveI : IsTotal ServiceItem fun a b => cmp a b ≤ 0 := ⟨fun a b => h.total a b⟩
  haveI : IsTrans ServiceItem fun a b => cmp a b ≤ 0 :=
    ⟨fun _ _ _ hab hbc => h.le_trans hab hbc⟩
  exact List.sorted_insertionSort _ l

theorem except_map_ok {α β : Type} (f : α → β) (x : α) :
    Except.map f (Except.ok x : Except String α) = .ok (f x) :=
  rfl

theorem except_map_error {α β : Type} (f : α → β) (e : String) :
    Except.map f (Except.error e : Except String α) = (.error e : Except String β) :=
  rfl

theorem promiseAll_cons_ok (a : ServiceItem) (rest : List (Except String ServiceItem)) :
    promiseAll (.ok a :: rest) = (promiseAll rest).map (a :: ·) :=
  rfl

theorem promiseAll_cons_error (e : String) (rest : List (Except String ServiceItem)) :
    promiseAll (.error e :: rest) = .error e :=
  rfl

theorem promiseAll_healthJoin_ok {services : List ServiceItem}
    (h : firstHealthError services = none) :
    promiseAll (healthJoin services) = .ok (services.map attachResolved) := by
  induction services with
  | nil => rfl
  | cons it rest ih =>
    unfold firstHealthError at h ih
    rw [List.findSome?_cons] at h
    unfold healthJoin at ih ⊢
    cases hp : it.healthPromise with
    | error e => rw [hp] at h; simp at h
    | ok health =>
      rw [hp] at h
      simp only at h
      rw [List.map_cons, hp, except_map_ok, promiseAll_cons_ok, ih h, except_map_ok]
      simp [List.map_cons, attachResolved, hp]

theorem promiseAll_healthJoin_error {services : List ServiceItem} {e : String}
    (h : firstHealthError services = some e) :
    promiseAll (healthJoin services) = .error e := by
  induction services with
  | nil => simp [firstHealthError] at h
  | cons it rest ih =>
    unfold firstHealthError at h ih
    rw [List.findSome?_cons] at h
    unfold healthJoin at ih ⊢
    cases hp : it.healthPromise with
    | error e' =>
      rw [hp] at h
      simp only at h
      cases h
      rw [List.map_cons, hp, except_map_error, promiseAll_cons_error]
    | ok health =>
      rw [hp] at h
      simp only at h
      rw [List.map_cons, hp, except_map_ok, promiseAll_cons_ok, ih h, except_map_error]

/-- Unfolding of `sortServices` outside the `Error Rate` branch. -/
theorem sortServices_nonHealth {sf : SortField} (ht : sf.title ≠ "Error Rate")
    (services : List ServiceItem) (isAscending : Bool) :
    sortServices services sf isAscending =
      { result := .ok .inputArray,
        inputArrayAfter := jsSort (directedCompare sf isAscending) services,
        synchronous := true } := by
  unfold sortServices
  rw [if_neg ht]

/-- Unfolding of `sortServices` in the `Error Rate` branch. -/
theorem sortServices_health {sf : SortField} (ht : sf.title = "Error Rate")
    (services : List ServiceItem) (isAscending : Bool) :
    sortServices services sf isAscending =
      { result :=
          (promiseAll (healthJoin services)).map fun arr =>
            .freshArray (jsSort (directedCompare sf isAscending) arr),
        inputArrayAfter := services.map attachResolved,
        synchronous := false } := by
  unfold sortServices healthJoin
  rw [if_pos ht]

/-! ### Concrete items used by witnesses and counterexamples -/

/-! ### Claims about sorting -/

/-- C3: for every sort field that does not depend on health, `sortServices`
resolves synchronously with no pending asynchronous work, and the resolved
list is a permutation of the input ordered by the field's comparator (or its
reversal when `isAscending` is false). -/
theorem C3_nonHealth_sort_synchronous (sf : SortField) (hsf : sf ∈ sortFields)
    (ht : sf.title ≠ "Error Rate") (services : List ServiceItem) (isAscending : Bool) :
    (sortServices services sf isAscending).synchronous = true ∧
    (sortServices services sf isAscending).resolvedContents =
      .ok (jsSort (directedCompare sf isAscending) services) ∧
    (jsSort (directedCompare sf isAscending) services).Perm services ∧
    (jsSort (directedCompare sf isAscending) services).Pairwise
      (fun a b => directedCompare sf isAscending a b ≤ 0) := by
  have hlaw := directedCompare_lawful (sortFields_compare_lawful sf hsf) isAscending
  rw [sortServices_nonHealth ht]
  exact ⟨rfl, rfl, jsSort_perm _ _, jsSort_sorted hlaw _⟩

theorem C3_nonHealth_sort_synchronous_witness :
    serviceNameSortField ∈ sortFields ∧ serviceNameSortField.title ≠ "Error Rate" ∧
    ((sortServices [itemB, itemA] serviceNameSortField true).synchronous = true ∧
      (sortServices [itemB, itemA] serviceNameSortField true).resolvedContents =
        .ok (jsSort (directedCompare serviceNameSortField true) [itemB, itemA]) ∧
      (jsSort (directedCompare serviceNameSortField true) [itemB, itemA]).Perm
        [itemB, itemA] ∧
      (jsSort (directedCompare serviceNameSortField true) [itemB, itemA]).Pairwise
        (fun a b => directedCompare serviceNameSortField true a b ≤ 0)) :=
  ⟨.tail _ (.head _), by decide,
    C3_nonHealth_sort_synchronous serviceNameSortField (.tail _ (.head _)) (by decide)
      [itemB, itemA] true⟩

/-- C10: for every non-health sort field the promise resolves with the very
input array object — the input list is reordered in place, so any other
holder of that array observes the new order. -/
theorem C10_nonHealth_sort_in_place (sf : SortField) (ht : sf.title ≠ "Error Rate")
    (services : List ServiceItem) (isAscending : Bool) :
    (sortServices services sf isAscending).result = .ok .inputArray ∧
    (sortServices services sf isAscending).inputArrayAfter =
      jsSort (directedCompare sf isAscending) services ∧
    (sortServices services sf isAscending).inputArrayAfter.Perm services := by
  rw [sortServices_nonHealth ht]
  exact ⟨rfl, rfl, jsSort_perm _ _⟩

theorem C10_nonHealth_sort_in_place_witness :
    istioSidecarSortField.title ≠ "Error Rate" ∧
    ((sortServices [itemA, itemB] istioSidecarSortField false).result =
        .ok .inputArray ∧
      (sortServices [itemA, itemB] istioSidecarSortField false).inputArrayAfter =
        jsSort (directedCompare istioSidecarSortField false) [itemA, itemB] ∧
      (sortServices [itemA, itemB] istioSidecarSortField false).inputArrayAfter.Perm
        [itemA, itemB]) :=
  ⟨by decide,
    C10_nonHealth_sort_in_place istioSidecarSortField (by decide) [itemA, itemB] false⟩

/-! ### Claims about filtering -/

/-- C7: the filtering step is idempotent and returns a new collection that is
a sublist of the input — the original relative order of passing items is
preserved and the input list is left untouched. -/
theorem C7_filter_idempotent (serviceList : List ServiceOverview)
    (servicenameFilters istioFilters : List String) :
    filterServices (filterServices serviceList servicenameFilters istioFilters)
        servicenameFilters istioFilters =
      filterServices serviceList servicenameFilters istioFilters ∧
    (filterServices serviceList servicenameFilters istioFilters).Sublist serviceList := by
  unfold filterServices
  by_cases h : 0 < servicenameFilters.length || 0 < istioFilters.length
  · rw [if_pos h, if_pos h, List.filter_filter]
    constructor
    · simp
    · exact List.filter_sublist _
  · rw [if_neg h, if_neg h]
    exact ⟨rfl, List.Sublist.refl _⟩

/-! ### Claims C1 and C2: the health fan-out -/

/-- C1 counterexample: the claim "attaches the resolved health as an
augmentation value without mutating the input items; the original items seen
by concurrent consumers are unchanged" is false.  On a singleton list whose
health promise resolves, the `Error Rate` sort resolves successfully, yet the
input array's item has been mutated in place: it gained the attached `health`
property, so a concurrent holder of the original item observes the change. -/
theorem C1_counterexample :
    (sortServices [itemA] errorRateSortField true).result =
      .ok (.freshArray [{ itemA with health := some ⟨⟨1⟩⟩ }]) ∧
    (sortServices [itemA] errorRateSortField true).inputArrayAfter ≠ [itemA] := by
  constructor
  · rfl
  · decide

/-- C1 (amended): for every list of service items whose health promises all
resolve, the `Error Rate` sort first awaits resolution of every item's health
promise, attaches each resolved health to its item by mutating the item in
place — so the input array ends up holding the attached items, in unchanged
order, and concurrent consumers of those items observe the attached health —
and only then applies the comparator, resolving with a fresh array that sorts
the attached items. -/
theorem C1_amended_health_sort_mutates (services : List ServiceItem) (isAscending : Bool)
    (h : firstHealthError services = none) :
    (sortServices services errorRateSortField isAscending).result =
      .ok (.freshArray (jsSort (directedCompare errorRateSortField isAscending)
        (services.map attachResolved))) ∧
    (sortServices services errorRateSortField isAscending).inputArrayAfter =
      services.map attachResolved ∧
    (sortServices services errorRateSortField isAscending).synchronous = false ∧
    (jsSort (directedCompare errorRateSortField isAscending)
        (services.map attachResolved)).Perm (services.map attachResolved) ∧
    ∀ it ∈ services, ∀ hh : ServiceHealth, it.healthPromise = .ok hh →
      attachResolved it = { it with health := some hh } := by
  rw [sortServices_health rfl, promiseAll_healthJoin_ok h]
  refine ⟨rfl, rfl, rfl, jsSort_perm _ _, ?_⟩
  intro it _ hh hp
  rw [attachResolved, hp]

theorem C1_amended_health_sort_mutates_witness :
    firstHealthError [itemB, itemA] = none ∧
    ((sortServices [itemB, itemA] errorRateSortField true).result =
        .ok (.freshArray (jsSort (directedCompare errorRateSortField true)
          ([itemB, itemA].map attachResolved))) ∧
      (sortServices [itemB, itemA] errorRateSortField true).inputArrayAfter =
        [itemB, itemA].map attachResolved ∧
      (sortServices [itemB, itemA] errorRateSortField true).synchronous = false ∧
      (jsSort (directedCompare errorRateSortField true)
          ([itemB, itemA].map attachResolved)).Perm ([itemB, itemA].map attachResolved) ∧
      ∀ it ∈ [itemB, itemA], ∀ hh : ServiceHealth, it.healthPromise = .ok hh →
        attachResolved it = { it with health := some hh }) :=
  ⟨by decide, C1_amended_health_sort_mutates [itemB, itemA] true (by decide)⟩

/-- C2: in a health-dependent sort in which at least one item's health promise
rejects, the promise returned by `sortServices` rejects with the first
rejection in array order, and `updateSortField` (which installs no rejection
handler) never calls `setState`: the component keeps its previous sort field
and direction, and its `services` state still holds the same array with the
same items in unchanged order (each item unchanged apart from the transient
`health` augmentation property, whose in-place attachment is settled under
C1). -/
theorem C2_health_sort_rejection (st : ComponentState) (sortField : SortField) (e : String)
    (ht : sortField.title = "Error Rate") (he : firstHealthError st.services = some e) :
    (sortServices st.services sortField st.isSortAscending).result = .error e ∧
    (updateSortField st sortField).currentSortField = st.currentSortField ∧
    (updateSortField st sortField).isSortAscending = st.isSortAscending ∧
    (updateSortField st sortField).services = st.services.map attachResolved ∧
    (updateSortField st sortField).services.map (fun it => { it with health := none }) =
      st.services.map (fun it => { it with health := none }) := by
  have hres : (sortServices st.services sortField st.isSortAscending).result = .error e := by
    rw [sortServices_health ht, promiseAll_healthJoin_error he, except_map_error]
  have hafter : (sortServices st.services sortField st.isSortAscending).inputArrayAfter =
      st.services.map attachResolved := by
    rw [sortServices_health ht]
  have hupd : updateSortField st sortField =
      { st with services := st.services.map attachResolved } := by
    simp [updateSortField, hres, hafter]
  refine ⟨hres, by rw [hupd], by rw [hupd], by rw [hupd], ?_⟩
  rw [hupd]
  simp only [List.map_map]
  apply List.map_congr_left
  intro it _
  simp only [Function.comp]
  cases hp : it.healthPromise <;> simp [attachResolved, hp]

theorem C2_health_sort_rejection_witness :
    errorRateSortField.title = "Error Rate" ∧
    firstHealthError [itemA, itemErr] = some "health fetch failed" ∧
    ((sortServices [itemA, itemErr] errorRateSortField true).result =
        .error "health fetch failed" ∧
      (updateSortField ⟨[itemA, itemErr], namespaceSortField, true⟩
          errorRateSortField).currentSortField = namespaceSortField ∧
      (updateSortField ⟨[itemA, itemErr], namespaceSortField, true⟩
          errorRateSortField).isSortAscending = true ∧
      (updateSortField ⟨[itemA, itemErr], namespaceSortField, true⟩
          errorRateSortField).services = [itemA, itemErr].map attachResolved ∧
      (updateSortField ⟨[itemA, itemErr], namespaceSortField, true⟩
            errorRateSortField).services.map (fun it => { it with health := none }) =
        [itemA, itemErr].map (fun it => { it with health := none })) :=
  ⟨rfl, by decide,
    C2_health_sort_rejection ⟨[itemA, itemErr], namespaceSortField, true⟩
      errorRateSortField "health fetch failed" rfl (by decide)⟩

/-! ### Claim C5: comparator order properties -/

/-- C5 counterexample: not every `sortFields` comparator is a strict total
order over service items.  The `Service Name` comparator compares two
distinct items that share a name (but live in different namespaces) as equal
in both directions, so the connectivity a strict total order requires fails. -/
theorem C5_counterexample :
    ¬ ∀ sf ∈ sortFields, ∀ a b : ServiceItem,
        a ≠ b → sf.compare a b < 0 ∨ sf.compare b a < 0 := by
  intro hclaim
  have h := hclaim serviceNameSortField (.tail _ (.head _)) itemDupName1 itemDupName2
    (by decide)
  rcases h with h | h <;> revert h <;> decide

/-- C5 (amended): every `sortFields` comparator is antisymmetric and
transitive, and whenever its primary comparison key ties it falls back to
lexicographic order on the item name; consequently the comparator is
connected — a strict total order — on items with pairwise distinct names,
though two distinct items with equal names (and a tying primary key) compare
as equal, which is what the counterexample exploits. -/
theorem C5_amended_comparator_order :
    (∀ sf ∈ sortFields, ∀ a b : ServiceItem,
      (sf.compare a b < 0 → ¬ sf.compare b a < 0) ∧
      (∀ c : ServiceItem, sf.compare a b < 0 → sf.compare b c < 0 → sf.compare a c < 0) ∧
      (a.name ≠ b.name → sf.compare a b < 0 ∨ sf.compare b a < 0)) ∧
    (∀ a b : ServiceItem, a.«namespace» = b.«namespace» →
      namespaceCompare a b = localeCompare a.name b.name) ∧
    (∀ a b : ServiceItem, serviceNameCompare a b = localeCompare a.name b.name) ∧
    (∀ a b : ServiceItem, a.istioSidecar = b.istioSidecar →
      istioSidecarCompare a b = localeCompare a.name b.name) ∧
    (∀ a b : ServiceItem,
      (getRequestErrorsRatio a.resolvedHealth.requests).value =
          (getRequestErrorsRatio b.resolvedHealth.requests).value →
      errorRateCompare a b = localeCompare a.name b.name) := by
  refine ⟨?_, ?_, ?_, ?_, ?_⟩
  · intro sf hsf a b
    have hlaw := sortFields_compare_lawful sf hsf
    refine ⟨fun hab => hlaw.asymm hab, fun c hab hbc => hlaw.lt_trans a b c hab hbc, ?_⟩
    intro hname
    rcases lt_trichotomy (sf.compare a b) 0 with h | h | h
    · exact Or.inl h
    · exact absurd (sortFields_compare_zero_name sf hsf a b h) hname
    · have := hlaw.swap a b
      exact Or.inr (by linarith)
  · intro a b hns
    rw [namespaceCompare_eq,
      lexCmp_of_primary_zero (localeCompare_eq_zero_iff.mpr (by rw [hns]))]
    rfl
  · intro a b
    rfl
  · intro a b hflag
    rw [istioSidecarCompare_eq,
      lexCmp_of_primary_zero (sidecarPrimaryCmp_eq_zero_iff.mpr hflag)]
    rfl
  · intro a b hratio
    rw [errorRateCompare_eq,
      lexCmp_of_primary_zero (ratioPrimaryCmp_eq_zero_iff.mpr hratio)]
    rfl

theorem C5_amended_comparator_order_witness :
    namespaceSortField ∈ sortFields ∧ itemA.name ≠ itemB.name ∧
    (namespaceSortField.compare itemA itemB < 0 ∨
      namespaceSortField.compare itemB itemA < 0) :=
  ⟨.head _, by decide,
    (C5_amended_comparator_order.1 namespaceSortField (.head _) itemA itemB).2.2
      (by decide)⟩

/-! ### Claim C4: filter semantics against the spec contract -/

/-- C4: for every service overview and every pair of de-duplicated filter
lists over the category's values, the source's `isFiltered` coincides with
the spec's OR-within-category / AND-across-categories contract. -/
theorem C4_isFiltered_matches_spec (service : ServiceOverview)
    (servicenameFilters istioFilters : List String)
    (hnd : istioFilters.Nodup)
    (hvals : ∀ v ∈ istioFilters, v = "Present" ∨ v = "Not Present") :
    isFiltered service servicenameFilters istioFilters =
      isFiltered_spec service servicenameFilters istioFilters := by
  unfold isFiltered isFiltered_spec
  have hname :
      (if 0 < servicenameFilters.length then
        servicenameFilters.any fun f => includes service.name f
      else true) =
        (servicenameFilters.isEmpty ||
          servicenameFilters.any fun f => includes service.name f) := by
    cases servicenameFilters <;> simp
  rw [hname]
  have histio :
      (if istioFilters.length = 1 then
        let v := istioFilters.headD ""
        if v = "Present" then service.istioSidecar
        else if v = "Not Present" then !service.istioSidecar
        else true
      else true) =
        (istioFilters.isEmpty || istioFilters.any fun v => istioValueMatches service v) := by
    match istioFilters, hnd, hvals with
    | [], _, _ => simp
    | [v], _, hvals =>
      rcases hvals v (by simp) with h | h <;> subst h <;>
        cases hs : service.istioSidecar <;> simp [istioValueMatches, hs]
    | [v1, v2], hnd, hvals =>
      have h12 : v1 ≠ v2 := by
        simp only [List.nodup_cons, List.mem_singleton] at hnd
        exact hnd.1
      rcases hvals v1 (by simp) with h1 | h1 <;> rcases hvals v2 (by simp) with h2 | h2
      · exact absurd (h1.trans h2.symm) h12
      · subst h1; subst h2
        cases hs : service.istioSidecar <;> simp [istioValueMatches, hs]
      · subst h1; subst h2
        cases hs : service.istioSidecar <;> simp [istioValueMatches, hs]
      · exact absurd (h1.trans h2.symm) h12
    | v1 :: v2 :: v3 :: rest, hnd, hvals =>
      exfalso
      simp only [List.nodup_cons, List.mem_cons, not_or] at hnd
      rcases hvals v1 (by simp) with h1 | h1 <;>
        rcases hvals v2 (by simp) with h2 | h2 <;>
          rcases hvals v3 (by simp) with h3 | h3 <;>
            simp [h1, h2, h3] at hnd
  rw [histio]

theorem C4_isFiltered_matches_spec_witness :
    (["Present", "Not Present"] : List String).Nodup ∧
    (∀ v ∈ (["Present", "Not Present"] : List String),
      v = "Present" ∨ v = "Not Present") ∧
    isFiltered ⟨"reviews", true⟩ ["view"] ["Present", "Not Present"] =
      isFiltered_spec ⟨"reviews", true⟩ ["view"] ["Present", "Not Present"] :=
  ⟨by decide, by decide,
    C4_isFiltered_matches_spec ⟨"reviews", true⟩ ["view"] ["Present", "Not Present"]
      (by decide) (by decide)⟩

/-! ### Claim C6: presence-filter collapse -/

theorem jsIndexOf_ge (l : List String) (x : String) : -1 ≤ jsIndexOf l x := by
  induction l with
  | nil => simp [jsIndexOf]
  | cons a t ih =>
    simp only [jsIndexOf]
    by_cases hxa : x = a
    · simp [hxa]
    · rw [if_neg hxa]
      by_cases hr : jsIndexOf t x = -1
      · simp [hr]
      · simp only [hr, if_false]
        omega

theorem jsIndexOf_self_cons (a : String) (t : List String) : jsIndexOf (a :: t) a = 0 := by
  simp [jsIndexOf]

theorem keepFirstAux_shift (a : String) (t : List String) :
    ∀ (rest : List String) (i : Int), 0 ≤ i →
      keepFirstAux (a :: t) (i + 1) rest = (keepFirstAux t i rest).filter (· != a) := by
  intro rest
  induction rest with
  | nil => intro i _; simp [keepFirstAux]
  | cons x rest ih =>
    intro i hi
    by_cases hxa : x = a
    · subst hxa
      rw [keepFirstAux, keepFirstAux]
      rw [jsIndexOf_self_cons, if_neg (by omega)]
      by_cases hj : jsIndexOf t x = i
      · rw [if_pos hj, List.filter_cons_of_neg (by simp), ih (i + 1) (by omega)]
      · rw [if_neg hj, ih (i + 1) (by omega)]
    · have hidx : jsIndexOf (a :: t) x =
          (if jsIndexOf t x = -1 then -1 else jsIndexOf t x + 1) := by
        simp [jsIndexOf, hxa]
      rw [keepFirstAux, keepFirstAux, hidx]
      by_cases hr : jsIndexOf t x = -1
      · rw [if_pos hr]
        rw [if_neg (by omega), if_neg (by omega), ih (i + 1) (by omega)]
      · rw [if_neg hr]
        by_cases hj : jsIndexOf t x = i
        · rw [if_pos (by omega), if_pos hj,
            List.filter_cons_of_pos (by simp [hxa]), ih (i + 1) (by omega)]
        · rw [if_neg (by omega), if_neg hj, ih (i + 1) (by omega)]

theorem keepFirstOccurrences_cons (a : String) (t : List String) :
    keepFirstOccurrences (a :: t) =
      a :: (keepFirstOccurrences t).filter (· != a) := by
  unfold keepFirstOccurrences
  rw [keepFirstAux, jsIndexOf_self_cons, if_pos rfl,
    show (0 : Int) + 1 = 0 + 1 from rfl, keepFirstAux_shift a t t 0 le_rfl]

theorem mem_keepFirstOccurrences {l : List String} {x : String} :
    x ∈ keepFirstOccurrences l ↔ x ∈ l := by
  induction l with
  | nil => simp [keepFirstOccurrences, keepFirstAux]
  | cons a t ih =>
    rw [keepFirstOccurrences_cons]
    simp only [List.mem_cons, List.mem_filter, ih, bne_iff_ne]
    by_cases hxa : x = a
    · simp [hxa]
    · simp [hxa]

theorem nodup_keepFirstOccurrences (l : List String) : (keepFirstOccurrences l).Nodup := by
  induction l with
  | nil => simp [keepFirstOccurrences, keepFirstAux]
  | cons a t ih =>
    rw [keepFirstOccurrences_cons, List.nodup_cons]
    constructor
    · intro hmem
      have := (List.mem_filter.mp hmem).2
      simp at this
    · exact ih.filter _

theorem nodup_pair_length {l : List String} {p q : String} (hnd : l.Nodup)
    (hmem : ∀ x ∈ l, x = p ∨ x = q) (hp : p ∈ l) (hq : q ∈ l) (hne : p ≠ q) :
    l.length = 2 := by
  match l, hnd, hmem, hp, hq with
  | [], _, _, hp, _ => cases hp
  | [x], _, hmem, hp, hq =>
    rw [List.mem_singleton] at hp hq
    exact absurd (hp.trans hq.symm) hne
  | [x, y], _, _, _, _ => rfl
  | x :: y :: z :: rest, hnd, hmem, _, _ =>
    exfalso
    simp only [List.nodup_cons, List.mem_cons, not_or] at hnd
    rcases hmem x (by simp) with h1 | h1 <;>
      rcases hmem y (by simp) with h2 | h2 <;>
        rcases hmem z (by simp) with h3 | h3 <;>
          simp [h1, h2, h3] at hnd

/-- C6: `cleanIstioFilters` first de-duplicates its input; a selection that
contains both values of the two-valued sidecar category collapses to the
empty filter list (no filter applied), while a duplicated single value is
de-duplicated and kept as a single-value filter. -/
theorem C6_clean_istio_filters (l : List String) (v : String) :
    ((∀ x ∈ l, x = "Present" ∨ x = "Not Present") → "Present" ∈ l →
      "Not Present" ∈ l → cleanIstioFilters l = []) ∧
    (l ≠ [] → (∀ x ∈ l, x = v) → cleanIstioFilters l = [v]) := by
  constructor
  · intro hvals hp hnp
    have hlen : l.length ≠ 0 := by
      cases l
      · cases hp
      · simp
    unfold cleanIstioFilters
    rw [if_neg hlen]
    have h2 : (keepFirstOccurrences l).length = 2 := by
      refine @nodup_pair_length (keepFirstOccurrences l) "Present" "Not Present"
        (nodup_keepFirstOccurrences l) ?_ ?_ ?_ (by decide)
      · intro x hx
        exact hvals x (mem_keepFirstOccurrences.mp hx)
      · exact mem_keepFirstOccurrences.mpr hp
      · exact mem_keepFirstOccurrences.mpr hnp
    rw [if_pos h2]
  · intro hne hall
    match l, hne, hall with
    | a :: t, _, hall =>
      have ha : a = v := hall a (by simp)
      subst ha
      have hkfo : keepFirstOccurrences (a :: t) = [a] := by
        rw [keepFirstOccurrences_cons]
        have : (keepFirstOccurrences t).filter (· != a) = [] := by
          apply List.filter_eq_nil_iff.mpr
          intro x hx
          have hx' : x ∈ t := mem_keepFirstOccurrences.mp hx
          simp [hall x (by simp [hx'])]
        rw [this]
      unfold cleanIstioFilters
      rw [if_neg (by simp), hkfo]
      rfl

theorem C6_clean_istio_filters_witness :
    cleanIstioFilters ["Present", "Not Present", "Present"] = [] ∧
    cleanIstioFilters ["Present", "Present"] = ["Present"] :=
  ⟨(C6_clean_istio_filters ["Present", "Not Present", "Present"] "Present").1
      (by decide) (by decide) (by decide),
    (C6_clean_istio_filters ["Present", "Present"] "Present").2 (by decide) (by decide)⟩

/-! ### Claim C8: the pagination slice -/

theorem range'_filterMap_getElem (l : List ServiceItem) :
    ∀ (n s : Nat), s + n ≤ l.length →
      (List.range' s n).filterMap (fun i => l[i]?) = (l.drop s).take n := by
  intro n
  induction n with
  | zero => intro s _; simp
  | succ n ih =>
    intro s hs
    have hslt : s < l.length := by omega
    rw [List.range'_succ, List.filterMap_cons, List.getElem?_eq_getElem hslt]
    simp only
    rw [ih (s + 1) (by omega), List.drop_eq_getElem_cons hslt, List.take_succ_cons]

/-- C8: for every 1-based page index, page size and item list, the rendered
slice is exactly `items[pageStart : pageEnd]` with `pageStart =
(page-1)*perPage` and `pageEnd = min(pageStart+perPage, totalCount)`; when
`pageStart ≥ totalCount` the slice is empty and no error occurs. -/
theorem C8_render_slice (services : List ServiceItem) (page perPage : Nat)
    (hpage : 1 ≤ page) :
    renderSlice services page perPage =
      (services.drop ((page - 1) * perPage)).take
        (min ((page - 1) * perPage + perPage) services.length -
          (page - 1) * perPage) ∧
    (services.length ≤ (page - 1) * perPage → renderSlice services page perPage = []) := by
  have hmain : renderSlice services page perPage =
      (services.drop ((page - 1) * perPage)).take
        (min ((page - 1) * perPage + perPage) services.length -
          (page - 1) * perPage) := by
    unfold renderSlice
    by_cases hlt : (page - 1) * perPage ≤ services.length
    · apply range'_filterMap_getElem
      have := Nat.min_le_right ((page - 1) * perPage + perPage) services.length
      omega
    · have hn : min ((page - 1) * perPage + perPage) services.length -
          (page - 1) * perPage = 0 := by
        have := Nat.min_le_right ((page - 1) * perPage + perPage) services.length
        omega
      simp [hn]
  refine ⟨hmain, fun hout => ?_⟩
  rw [hmain]
  have : min ((page - 1) * perPage + perPage) services.length -
      (page - 1) * perPage = 0 := by omega
  rw [this, List.take_zero]

theorem C8_render_slice_witness :
    (1 ≤ 2 ∧
      renderSlice [itemA, itemB, itemErr] 2 2 =
        ([itemA, itemB, itemErr].drop 2).take (min 4 3 - 2)) ∧
    (1 ≤ 9 ∧ renderSlice [itemA, itemB, itemErr] 9 2 = []) :=
  ⟨⟨by decide, (C8_render_slice [itemA, itemB, itemErr] 2 2 (by decide)).1⟩,
    ⟨by decide, (C8_render_slice [itemA, itemB, itemErr] 9 2 (by decide)).2 (by decide)⟩⟩

/-! ### Claim C9: the persistence whitelist -/

/-- C9: the persistence configuration serializes exactly the whitelisted
slices `authentication`, `statusState` and `userSettings`; the other slices
(`globalState`, `namespaces`, `messageCenter`, `graph`) are never persisted
and are reconstructed from their compile-time defaults on every process
start, and a store rehydrated from empty storage equals `initialStore`
exactly. -/
theorem C9_persistence_whitelist (state : KialiAppState)
    (stored : SliceName → Option SliceValue) :
    persistedSlices state .authentication = some (state .authentication) ∧
    persistedSlices state .statusState = some (state .statusState) ∧
    persistedSlices state .userSettings = some (state .userSettings) ∧
    persistedSlices state .globalState = none ∧
    persistedSlices state .namespaces = none ∧
    persistedSlices state .messageCenter = none ∧
    persistedSlices state .graph = none ∧
    rehydrate stored .globalState = initialStore .globalState ∧
    rehydrate stored .namespaces = initialStore .namespaces ∧
    rehydrate stored .messageCenter = initialStore .messageCenter ∧
    rehydrate stored .graph = initialStore .graph ∧
    rehydrate (fun _ => none) = initialStore := by
  refine ⟨rfl, rfl, rfl, rfl, rfl, rfl, rfl, rfl, rfl, rfl, rfl, ?_⟩
  funext s
  cases s <;> rfl
